import Mathlib

/-!
Verification of the gitfs core against its specification.

This file shallowly embeds the data model and operations of the gitfs
repository: the path-indexed tree (internal/tree/tree.go), the directory
and lazy-file nodes with their handles (internal/tree node/file sources),
the glob path filter (internal/glob/glob.go), the metadata tree builder
and the eager tree builder's error sink (internal/githubfs/githubfs.go),
and the project-identifier parser (githubfs newProject/verifyRef).

Go machine details are modelled as follows: Go strings are Lean `String`s
and byte-level operations on ASCII separators are the corresponding
character-level operations on `String.data`; Go `nil` results and errors
are `Option`/`Except`; in-place mutation of the tree map and of per-file
state is explicit state passing; pointer aliasing of the per-handle
`bytes.Reader` is modelled by a cursor store indexed by allocation order,
with handles holding cursor indices (a copied handle struct copies the
index, exactly as the Go copy copies the pointer).
-/

namespace Gitfs

/-- Error values of the embedded code.  Each constructor stands for one
distinct error the sources can produce; messages are reduced to the data
the claims need. -/
inductive Err where
  /-- os.ErrNotExist, returned by Tree.Open for a missing path. -/
  | errNotExist
  /-- os.ErrInvalid, returned by Tree.Open on a kind mismatch. -/
  | errInvalid
  /-- The "trying to override %T on path %s" error of AddDir/AddFile. -/
  | override (path : String)
  /-- A Go panic (the parent-must-be-dir cast in AddDir/AddFile). -/
  | panicked
  /-- context.Canceled, as returned by ctx.Err() on a cancelled context. -/
  | ctxCanceled
  /-- io.EOF from bytes.Reader.Read at or past the end of the content. -/
  | eof
  /-- The "negative position" error of bytes.Reader.Seek. -/
  | negativeSeek
  /-- The "ref must have a 'heads/' or 'tags/' prefix" error of verifyRef. -/
  | badRef
  /-- errors.Wrap / errors.Wrapf: an error with added context text. -/
  | wrap (msg : String) (e : Err)
  /-- A generic error with a message, for loader failures in examples. -/
  | msg (s : String)
deriving DecidableEq, Repr

/-- Request contexts are reduced to the one observable the embedded code
reads, whether ctx.Err() is non-nil: `true` means done/cancelled.
context.Background() is the live context `false`. -/
abbrev Ctx := Bool

/-- ctx.Err(): context.Canceled on a done context, nil otherwise. -/
def ctxErr (c : Ctx) : Option Err :=
  if c then some Err.ctxCanceled else none

/-- Character-list test that `pre` is a prefix of `l`
(Go strings.HasPrefix on the underlying bytes, ASCII). -/
def hasPre : List Char → List Char → Bool
  | [], _ => true
  | _ :: _, [] => false
  | p :: ps, x :: xs => p = x && hasPre ps xs

/-- strings.Split on a single separator character, on character lists. -/
def splitOnChar (c : Char) : List Char → List (List Char)
  | [] => [[]]
  | x :: xs =>
    if x = c then [] :: splitOnChar c xs
    else
      match splitOnChar c xs with
      | g :: gs => (x :: g) :: gs
      | [] => [[x]]

/-- strings.Trim(path, "/") on a character list: drop every leading and
trailing '/'. -/
def trimSlashes (l : List Char) : List Char :=
  ((l.dropWhile (· = '/')).reverse.dropWhile (· = '/')).reverse

/-- cleanPath of internal/tree/tree.go: strings.Trim(path, "/"). -/
def cleanPath (s : String) : String :=
  ⟨trimSlashes s.data⟩

/-- filepath.Split on a character list: everything up to and including the
final '/' (the directory), and everything after it (the name). -/
def splitPathList (l : List Char) : List Char × List Char :=
  let r := l.reverse
  ((r.dropWhile (· ≠ '/')).reverse, (r.takeWhile (· ≠ '/')).reverse)

/-- filepath.Split as used by AddDir/AddFile. -/
def splitPath (s : String) : String × String :=
  ((splitPathList s.data).1.asString, (splitPathList s.data).2.asString)

/-- Child metadata entry as stored in a directory's `files` slice: the
os.FileInfo data the tree code reads from a child (name, size, IsDir). -/
structure FInfo where
  name : String
  size : Int
  isDir : Bool
deriving DecidableEq, Repr

/-- A node of the tree: a directory (newDir: name and child-metadata
slice) or a file (newFile: name, declared size and loader).  The loader
type `L` is never inspected or invoked by the tree code. -/
inductive Node (L : Type) where
  | dir (name : String) (files : List FInfo)
  | file (name : String) (size : Int) (load : L)
deriving DecidableEq, Repr

/-- Whether a node is a directory (the `(*dir)` type assertion / IsDir). -/
def Node.isDir {L : Type} : Node L → Bool
  | .dir _ _ => true
  | .file _ _ _ => false

/-- The Tree type of internal/tree/tree.go: a map from path to node,
modelled as an association list keyed by the path. -/
def Tree (L : Type) := List (String × Node L)

instance {L : Type} [DecidableEq L] : DecidableEq (Tree L) :=
  inferInstanceAs (DecidableEq (List (String × Node L)))

/-- Map lookup t[path] (nil for a missing key). -/
def Tree.find {L : Type} (t : Tree L) (p : String) : Option (Node L) :=
  match t with
  | [] => none
  | (q, n) :: rest => if q = p then some n else Tree.find rest p

/-- Map assignment t[path] = n (replace an existing binding or add one). -/
def Tree.insert {L : Type} (t : Tree L) (p : String) (n : Node L) : Tree L :=
  match t with
  | [] => [(p, n)]
  | (q, m) :: rest => if q = p then (p, n) :: rest else (q, m) :: Tree.insert rest p n

lemma trimSlashes_length_le (l : List Char) : (trimSlashes l).length ≤ l.length := by
  unfold trimSlashes
  calc ((l.dropWhile (· = '/')).reverse.dropWhile (· = '/')).reverse.length
      = ((l.dropWhile (· = '/')).reverse.dropWhile (· = '/')).length := by
        exact List.length_reverse _
    _ ≤ (l.dropWhile (· = '/')).reverse.length :=
        (List.dropWhile_sublist _).length_le
    _ = (l.dropWhile (· = '/')).length := List.length_reverse _
    _ ≤ l.length := (List.dropWhile_sublist _).length_le

lemma splitPathList_append (l : List Char) :
    (splitPathList l).1 ++ (splitPathList l).2 = l := by
  unfold splitPathList
  simp only
  rw [← List.reverse_append, List.takeWhile_append_dropWhile, List.reverse_reverse]

lemma cleanPath_data (s : String) : (cleanPath s).data = trimSlashes s.data := rfl

/-- Length facts used for the termination of AddDir: when the final path
component is non-empty, the (cleaned) parent path is strictly shorter
than the argument. -/
lemma parent_length_lt (s : String) (h : (splitPath (cleanPath s)).2 ≠ "") :
    (cleanPath (splitPath (cleanPath s)).1).data.length < s.data.length := by
  have hname : (splitPathList (cleanPath s).data).2 ≠ [] := by
    intro hc
    apply h
    show ((splitPathList (cleanPath s).data).2.asString) = ""
    rw [hc]
    rfl
  have hlen : (splitPathList (cleanPath s).data).1.length
      + (splitPathList (cleanPath s).data).2.length = (cleanPath s).data.length := by
    conv_rhs => rw [← splitPathList_append (cleanPath s).data]
    rw [List.length_append]
  have hpos : 0 < (splitPathList (cleanPath s).data).2.length :=
    List.length_pos.mpr hname
  have h1 : (splitPathList (cleanPath s).data).1.length < (cleanPath s).data.length := by
    omega
  have h2 : (cleanPath s).data.length ≤ s.data.length := by
    rw [cleanPath_data]; exact trimSlashes_length_le s.data
  have h3 : (cleanPath (splitPath (cleanPath s)).1).data.length
      ≤ (splitPath (cleanPath s)).1.data.length := by
    rw [cleanPath_data]; exact trimSlashes_length_le _
  have h4 : (splitPath (cleanPath s)).1.data.length
      = (splitPathList (cleanPath s).data).1.length := by
    show (splitPathList (cleanPath s).data).1.asString.data.length = _
    rw [List.asString]
  omega

/-- Tree.AddDir of internal/tree/tree.go.  Returns the tree state after
the call together with the error (mutations made before a failing
recursive call persist, as they do on the in-place Go map). -/
def Tree.AddDir {L : Type} (t : Tree L) (path0 : String) : Tree L × Option Err :=
  let path := cleanPath path0
  match t.find path with
  | some n =>
    if n.isDir then (t, none) else (t, some (Err.override path))
  | none =>
    let dirPath := cleanPath (splitPath path).1
    let name := (splitPath path).2
    let t1 := t.insert path (Node.dir name [])
    if hn : name = "" then
      (t1, none)
    else
      match Tree.AddDir t1 dirPath with
      | (t2, some e) => (t2, some e)
      | (t2, none) =>
        match t2.find dirPath with
        | some (Node.dir dn dfs) =>
          (t2.insert dirPath (Node.dir dn (dfs ++ [⟨name, 0, true⟩])), none)
        | _ => (t2, some Err.panicked)
termination_by path0.data.length
decreasing_by
  exact parent_length_lt path0 hn

/-- Tree.AddFile of internal/tree/tree.go.  Same state convention as
AddDir. -/
def Tree.AddFile {L : Type} (t : Tree L) (path0 : String) (size : Int) (load : L) :
    Tree L × Option Err :=
  let path := cleanPath path0
  match t.find path with
  | some n =>
    if n.isDir then (t, some (Err.override path)) else (t, none)
  | none =>
    let dirPath := cleanPath (splitPath path).1
    let name := (splitPath path).2
    let t1 := t.insert path (Node.file name size load)
    match Tree.AddDir t1 dirPath with
    | (t2, some e) => (t2, some e)
    | (t2, none) =>
      match t2.find dirPath with
      | some (Node.dir dn dfs) =>
        (t2.insert dirPath (Node.dir dn (dfs ++ [⟨name, size, false⟩])), none)
      | _ => (t2, some Err.panicked)

/-- An open handle as returned by Tree.Open via Opener.Open(): for a
directory, the dir object itself (whose state is just its metadata); for
a file, a lazyReader with the file's data, a nil cursor and a background
context (`file.Open()` in the file source: `&lazyReader with ctx
context.Background()`).  The cursor field is the reader pointer, `none`
for nil. -/
inductive Handle (L : Type) where
  | dirHandle (name : String) (files : List FInfo)
  | fileHandle (name : String) (size : Int) (load : L) (reader : Option Nat) (ctx : Ctx)
deriving DecidableEq, Repr

/-- Opener.Open() on a node: dir.Open returns the dir, file.Open returns
a fresh lazyReader with nil cursor and background context. -/
def Node.openHandle {L : Type} : Node L → Handle L
  | .dir n fs => .dirHandle n fs
  | .file n s l => .fileHandle n s l none false

/-- The `valid` helper of tree.go: a name with a trailing '/' demands
that the node is a directory (Stat on these nodes never fails, so only
IsDir matters). -/
def valid {L : Type} (name : String) (node : Node L) : Bool :=
  let expectingDir := name.data.getLast? = some '/'
  if expectingDir then node.isDir else true

/-- Tree.Open of tree.go: trim '/' from both ends, look the path up
(os.ErrNotExist if absent), reject a directory-asserting name bound to a
file (os.ErrInvalid), otherwise hand out opener.Open(). -/
def Tree.Open {L : Type} (t : Tree L) (name : String) : Except Err (Handle L) :=
  let path := cleanPath name
  match t.find path with
  | none => Except.error Err.errNotExist
  | some node =>
    if valid name node then Except.ok node.openHandle else Except.error Err.errInvalid

/-- dir.Readdir and file.Readdir of the node source: a directory returns
all children for n <= 0 or n >= len, otherwise the first n; a file
returns nil, nil. -/
def Handle.Readdir {L : Type} : Handle L → Int → List FInfo × Option Err
  | .dirHandle _ files, n =>
    if n ≤ 0 || n ≥ (files.length : Int) then (files, none)
    else (files.take n.toNat, none)
  | .fileHandle _ _ _ _ _, _ => ([], none)

/-! ## Glob patterns (internal/glob/glob.go)

The pattern list type and its Match.  The two Go standard-library
functions the code calls, filepath.Match (single-pattern matching) and
filepath.Clean (path normalization), are not part of this repository and
are taken as parameters `matchOne` and `clean`. -/

/-- The Patterns type: a list of glob pattern strings. -/
abbrev Patterns := List String

/-- matchFull of glob.go: some pattern matches the whole name. -/
def Patterns.matchFull (matchOne : String → String → Bool) (p : Patterns)
    (name : String) : Bool :=
  p.any fun pattern => matchOne pattern name

/-- matchPrefix of glob.go: the path's '/'-separated components all match
the leading components of some pattern with at least as many components.
Component lists are compared positionally with filepath.Match. -/
def Patterns.matchParts (matchOne : String → String → Bool) (p : Patterns)
    (pre : String) : Bool :=
  let parts := (splitOnChar '/' pre.data).map List.asString
  p.any fun pattern =>
    let patternParts := (splitOnChar '/' pattern.data).map List.asString
    ¬ patternParts.length < parts.length
      ∧ (parts.zip patternParts).all fun q => matchOne q.2 q.1

/-- Patterns.Match of glob.go: clean the path, then require a full match
for a file and a component-prefix match for a directory. -/
def Patterns.Match (clean : String → String) (matchOne : String → String → Bool)
    (p : Patterns) (path : String) (isDir : Bool) : Bool :=
  let path := clean path
  (isDir && p.matchParts matchOne path) || (!isDir && p.matchFull matchOne path)

/-! ## Metadata tree builder (githubfs.getTree)

One recursive listing call yields entries of type "tree" or "blob"; the
loop filters by the configured subpath and glob patterns and populates a
Tree whose file loaders are the deferred blob fetchers.  The loader is
represented by the blob SHA it would fetch (the tree never calls it), so
the tree's loader type is String. -/

/-- One entry of the GetTree listing: path, type ("tree" or "blob"),
size and blob SHA. -/
structure GhEntry where
  path : String
  typ : String
  size : Int
  sha : String
deriving DecidableEq, Repr

/-- The entry loop of getTree in githubfs.go, with the tree accumulated
so far; a failing AddDir/AddFile aborts with the wrapped error. -/
def getTreeLoop (clean : String → String) (matchOne : String → String → Bool)
    (patterns : Patterns) (fsPath : String) :
    List GhEntry → Tree String → Except Err (Tree String)
  | [], t => Except.ok t
  | entry :: rest, t =>
    if fsPath ≠ "" ∧ ¬ hasPre fsPath.data entry.path.data then
      getTreeLoop clean matchOne patterns fsPath rest t
    else
      let path : String :=
        if fsPath ≠ "" then ⟨entry.path.data.drop fsPath.data.length⟩ else entry.path
      if entry.typ = "tree" then
        if ¬ Patterns.Match clean matchOne patterns path true then
          getTreeLoop clean matchOne patterns fsPath rest t
        else
          match t.AddDir path with
          | (t2, none) => getTreeLoop clean matchOne patterns fsPath rest t2
          | (_, some e) => Except.error (Err.wrap ("adding " ++ path) e)
      else if entry.typ = "blob" then
        if ¬ Patterns.Match clean matchOne patterns path false then
          getTreeLoop clean matchOne patterns fsPath rest t
        else
          match t.AddFile path entry.size entry.sha with
          | (t2, none) => getTreeLoop clean matchOne patterns fsPath rest t2
          | (_, some e) => Except.error (Err.wrap ("adding " ++ path) e)
      else
        getTreeLoop clean matchOne patterns fsPath rest t

/-- getTree of githubfs.go: start from the empty tree and run the entry
loop over the listing. -/
def getTree (clean : String → String) (matchOne : String → String → Bool)
    (patterns : Patterns) (fsPath : String) (entries : List GhEntry) :
    Except Err (Tree String) :=
  getTreeLoop clean matchOne patterns fsPath entries []

/-! ## Project identifier parsing (githubfs newProject / verifyRef)

newProject matches the identifier against
`^github\.com/([^@/]+)/([^@/]+)(/([^@]*))?(@([^#]+))?$` and then
post-processes the captured groups; the function below models that
post-processing on the captured owner, repo, subpath and ref groups of
any matching identifier. -/

/-- A parsed project. -/
structure GhProject where
  owner : String
  repo : String
  ref : String
  path : String
deriving DecidableEq, Repr

/-- The semantic-version pattern `^v?\d+(\.\d+){0,2}$`: an optional
leading 'v', then one to three dot-separated runs of digits. -/
def reSemverMatch (s : String) : Bool :=
  let rest := if hasPre ['v'] s.data then s.data.drop 1 else s.data
  let groups := splitOnChar '.' rest
  decide (1 ≤ groups.length ∧ groups.length ≤ 3)
    && groups.all fun g => ¬ g.isEmpty ∧ g.all Char.isDigit

/-- verifyRef of githubfs: a non-empty ref must start with "heads/" or
"tags/". -/
def verifyRef (ref : String) : Option Err :=
  if ref ≠ "" && !hasPre "heads/".data ref.data && !hasPre "tags/".data ref.data then
    some Err.badRef
  else
    none

/-- newProject of githubfs, modelled on the capture groups of a matching
identifier (matches[1] owner, matches[2] repo, matches[4] path,
matches[6] ref): append '/' to a non-empty path not already ending in
'/', prepend "tags/" to a semver ref, then verify the ref. -/
def newProject (owner repo path ref : String) : Except Err GhProject :=
  let path2 : String :=
    if path.data ≠ [] ∧ path.data.getLast? ≠ some '/' then ⟨path.data ++ ['/']⟩ else path
  let ref2 : String := if reSemverMatch ref then "tags/" ++ ref else ref
  match verifyRef ref2 with
  | some e => Except.error e
  | none => Except.ok ⟨owner, repo, ref2, path2⟩

/-! ## Eager tree builder's error sink (recursiveGetContents)

The eager builder reports task errors through the channel created by
`errors: make(chan error)` — an unbuffered channel.  `check` sends with a
non-blocking select (a failed send logs and drops the error) and
`download` receives once, after wg.Wait(), also with a non-blocking
select.  A non-blocking channel operation in Go succeeds only when the
buffer has room (for a send), holds a value (for a receive), or a
counterpart goroutine is already blocked on the channel; no goroutine
ever blocks on this channel, so the buffer alone decides, and its
capacity is the literal capacity of make(chan error). -/

/-- Capacity of the errors channel: `make(chan error)` is unbuffered. -/
def errorsChanCap : Nat := 0

/-- Non-blocking channel send: succeeds iff the buffer has room. -/
def trySend (buf : List Err) (e : Err) : List Err × Bool :=
  if buf.length < errorsChanCap then (buf ++ [e], true) else (buf, false)

/-- Non-blocking channel receive: the buffered value, if any. -/
def tryRecv (buf : List Err) : Option Err := buf.head?

/-- check of recursiveGetContents: a non-nil error is sent without
blocking; when the send fails the error is logged and dropped. -/
def checkErr (buf : List Err) (r : Option Err) : List Err :=
  match r with
  | none => buf
  | some e => (trySend buf e).1

/-- The observable result of recursiveGetContents.download over a run
whose spawned tasks finished with the given results: every finished
recursion/download task passes its result to check (in completion
order), and after the join barrier drains, download performs one
non-blocking receive and returns its result (nil when the channel
yields nothing). -/
def downloadRun (results : List (Option Err)) : Option Err :=
  tryRecv (results.foldl checkErr [])

/-- download in the sequential case: the root recursive call is the one
task, checked by `gc.check(gc.recursive(ctx, gc.path))` on the calling
goroutine before wg.Wait(). -/
def downloadSeq (rootResult : Option Err) : Option Err :=
  downloadRun [rootResult]

/-! ## Lazy file content (file.loadContent and lazyReader)

The per-file state is the content cache cell; operations run under the
file's lock, so a sequential trace of loadContent/Read/Seek calls covers
every schedule of the lock-ordered critical sections.  Two ghost
counters record how often the loader was invoked and how often it
succeeded; they exist only for the theorems and are written by no
branch that the Go code does not take. -/

/-- The mutable state of a file node: the content cache (nil until a
load succeeds) plus ghost invocation counters. -/
structure FileSt where
  content : Option String
  loads : Nat
  succs : Nat
deriving DecidableEq, Repr

/-- A file whose loader has not run. -/
def initFile : FileSt := ⟨none, 0, 0⟩

/-- file.loadContent: under the file's lock, return immediately when the
content is already cached; otherwise invoke the loader with the given
request context, keeping the result only on success. -/
def loadContent (load : Ctx → Except Err String) (f : FileSt) (ctx : Ctx) :
    FileSt × Option Err :=
  if f.content.isSome then
    (f, none)
  else
    match load ctx with
    | Except.error e => ({ f with loads := f.loads + 1 }, some e)
    | Except.ok buf =>
      ({ content := some buf, loads := f.loads + 1, succs := f.succs + 1 }, none)

/-- A sequence of loadContent calls with the given request contexts. -/
def loadContentSeq (load : Ctx → Except Err String) (f : FileSt) :
    List Ctx → FileSt
  | [] => f
  | ctx :: rest => loadContentSeq load (loadContent load f ctx).1 rest

/-- The state of one bytes.Reader: the byte slice it was created over
and the read position. -/
structure Cursor where
  content : String
  pos : Nat
deriving DecidableEq, Repr

/-- bytes.Reader.Read into a buffer of length n: io.EOF at or past the
end, otherwise up to n bytes from the position, advancing it. -/
def cursorRead (cur : Cursor) (n : Nat) : Cursor × Except Err String :=
  if cur.content.data.length ≤ cur.pos then
    (cur, Except.error Err.eof)
  else
    let k := min n (cur.content.data.length - cur.pos)
    ({ cur with pos := cur.pos + k }, Except.ok ⟨(cur.content.data.drop cur.pos).take k⟩)

/-- The whence argument of Seek. -/
inductive Whence where
  | toStart
  | fromCurrent
  | fromEnd
deriving DecidableEq, Repr

/-- bytes.Reader.Seek: compute the absolute offset, reject a negative
one, otherwise move the position there. -/
def cursorSeek (cur : Cursor) (offset : Int) (whence : Whence) :
    Cursor × Except Err Int :=
  let base : Int :=
    match whence with
    | .toStart => 0
    | .fromCurrent => cur.pos
    | .fromEnd => cur.content.data.length
  let abs := base + offset
  if abs < 0 then (cur, Except.error Err.negativeSeek)
  else ({ cur with pos := abs.toNat }, Except.ok abs)

/-- A lazyReader handle: the reader field is the *bytes.Reader pointer,
modelled as an index into the world's cursor store (`none` for nil), and
the bound request context. -/
structure LzReader where
  reader : Option Nat
  ctx : Ctx
deriving DecidableEq, Repr

/-- The world a file and its handles live in: the shared file state and
the store of every bytes.Reader allocated so far, indexed by allocation
order. -/
structure World where
  file : FileSt
  cursors : List Cursor
deriving DecidableEq, Repr

/-- A world with an unloaded file and no cursors. -/
def initWorld : World := ⟨initFile, []⟩

/-- file.Open(): a fresh handle with nil reader and background context. -/
def openReader : LzReader := ⟨none, false⟩

/-- lazyReader.withContext: the Go method has a value receiver, so the
handle struct is copied — including the reader pointer — and only the
context field is replaced.  A handle whose cursor exists is therefore
aliased by the copy. -/
def LzReader.withContext (r : LzReader) (ctx : Ctx) : LzReader :=
  { r with ctx := ctx }

/-- lazyReader.lazy: load the content with the handle's context, then,
if this handle has no reader yet, allocate a bytes.Reader over the
cached content. -/
def LzReader.lazy (load : Ctx → Except Err String) (w : World) (r : LzReader) :
    World × LzReader × Option Err :=
  match loadContent load w.file r.ctx with
  | (f2, some e) => ({ w with file := f2 }, r, some e)
  | (f2, none) =>
    match r.reader with
    | some _ => ({ w with file := f2 }, r, none)
    | none =>
      let cid := w.cursors.length
      (⟨f2, w.cursors ++ [⟨f2.content.getD "", 0⟩]⟩, { r with reader := some cid }, none)

/-- lazyReader.Read: lazy-init, then fail when the bound context is
done, otherwise read from this handle's bytes.Reader. -/
def LzReader.Read (load : Ctx → Except Err String) (w : World) (r : LzReader)
    (n : Nat) : World × LzReader × Except Err String :=
  match LzReader.lazy load w r with
  | (w2, r2, some e) => (w2, r2, Except.error e)
  | (w2, r2, none) =>
    match ctxErr r2.ctx with
    | some e => (w2, r2, Except.error e)
    | none =>
      match r2.reader with
      | none => (w2, r2, Except.error Err.panicked)
      | some cid =>
        match w2.cursors.get? cid with
        | none => (w2, r2, Except.error Err.panicked)
        | some cur =>
          let res := cursorRead cur n
          ({ w2 with cursors := w2.cursors.set cid res.1 }, r2, res.2)

/-- lazyReader.Seek: lazy-init, then seek this handle's bytes.Reader
(no context check, as in the source). -/
def LzReader.Seek (load : Ctx → Except Err String) (w : World) (r : LzReader)
    (offset : Int) (whence : Whence) : World × LzReader × Except Err Int :=
  match LzReader.lazy load w r with
  | (w2, r2, some e) => (w2, r2, Except.error e)
  | (w2, r2, none) =>
    match r2.reader with
    | none => (w2, r2, Except.error Err.panicked)
    | some cid =>
      match w2.cursors.get? cid with
      | none => (w2, r2, Except.error Err.panicked)
      | some cur =>
        let res := cursorSeek cur offset whence
        ({ w2 with cursors := w2.cursors.set cid res.1 }, r2, res.2)

/-! ## Concrete states used by the evaluation theorems -/

/-- AddFile "a" on the empty tree (succeeds). -/
def c4t1 : Tree Unit × Option Err := Tree.AddFile ([] : Tree Unit) "a" 10 ()

/-- AddDir "a/b" on the previous tree: the path "a" is a file, so the
call fails — after inserting the new directory node. -/
def c4t2 : Tree Unit × Option Err := Tree.AddDir c4t1.1 "a/b"

/-- A tree holding the file "a" and the directory "b", for the Open
witness. -/
def c7w : Tree Unit :=
  [("a", Node.file "a" 6 ()), ("b", Node.dir "b" [⟨"c", 1, false⟩])]

/-- A tree holding the file "a" and the directory "b", for the
conflicting-insertion witness. -/
def c9w : Tree Unit :=
  [("a", Node.file "a" 6 ()), ("b", Node.dir "b" [])]

/-- A loader that ignores its context and returns "hello". -/
def ldPlain : Ctx → Except Err String := fun _ => Except.ok "hello"

/-- A loader honouring the Loader contract: error on a done context,
"hello" otherwise. -/
def ldContract : Ctx → Except Err String := fun c =>
  if c then Except.error Err.ctxCanceled else Except.ok "hello"

/-! ## Helper lemmas -/

lemma match_nil (clean : String → String) (matchOne : String → String → Bool)
    (path : String) (isDir : Bool) :
    Patterns.Match clean matchOne [] path isDir = false := by
  simp [Patterns.Match, Patterns.matchFull, Patterns.matchParts]

lemma getTreeLoop_nil_patterns (clean : String → String)
    (matchOne : String → String → Bool) (fsPath : String) :
    ∀ (entries : List GhEntry) (t : Tree String),
      getTreeLoop clean matchOne [] fsPath entries t = Except.ok t := by
  intro entries
  induction entries with
  | nil => intro t; rfl
  | cons e rest ih =>
    intro t
    simp only [getTreeLoop, match_nil, Bool.false_eq_true, not_false_eq_true, if_true,
      ite_self]
    exact ih t

lemma checkErr_nil (r : Option Err) : checkErr [] r = [] := by
  cases r <;> rfl

lemma hasPre_append (pre l : List Char) : hasPre pre (pre ++ l) = true := by
  induction pre with
  | nil => rfl
  | cons p ps ih => simp [hasPre, ih]

lemma foldl_checkErr_nil (rs : List (Option Err)) :
    rs.foldl checkErr [] = [] := by
  induction rs with
  | nil => rfl
  | cons r rest ih => rw [List.foldl_cons, checkErr_nil, ih]

lemma loadContent_cached (load : Ctx → Except Err String) (f : FileSt) (ctx : Ctx)
    (c : String) (h : f.content = some c) :
    loadContent load f ctx = (f, none) := by
  unfold loadContent
  rw [h]
  rfl

lemma loadContentSeq_cached (load : Ctx → Except Err String) (f : FileSt)
    (c : String) (h : f.content = some c) :
    ∀ ctxs : List Ctx, loadContentSeq load f ctxs = f := by
  intro ctxs
  induction ctxs with
  | nil => rfl
  | cons ctx rest ih =>
    unfold loadContentSeq
    rw [loadContent_cached load f ctx c h]
    exact ih

lemma loadContentSeq_succs_le (load : Ctx → Except Err String) :
    ∀ (ctxs : List Ctx) (f : FileSt), f.succs ≤ 1 → (f.content = none → f.succs = 0) →
      (loadContentSeq load f ctxs).succs ≤ 1 := by
  intro ctxs
  induction ctxs with
  | nil => intro f h1 _; exact h1
  | cons ctx rest ih =>
    intro f h1 h0
    unfold loadContentSeq
    match hc : f.content with
    | some c =>
      rw [loadContent_cached load f ctx c hc]
      exact ih f h1 h0
    | none =>
      have hz : f.succs = 0 := h0 hc
      unfold loadContent
      rw [hc]
      simp only [Option.isSome_none, Bool.false_eq_true, if_false]
      match hl : load ctx with
      | Except.error e =>
        exact ih _ (by simpa using h1) (by intro _; simpa using hz)
      | Except.ok buf =>
        exact ih _ (by simp [hz]) (by intro hcc; simp at hcc)

/-! ## Claim theorems -/

/-- Claim C1: the claim says that when a task of the eager builder
fails, the first error passed to the error sink is retained and returned
by download, already in the sequential case where the root recursive
call errors.  The code violates this: the errors channel is unbuffered
and both the send in check and the receive in download are non-blocking,
so every error is dropped and download returns nil — in the sequential
root-failure case and in fact for every list of task results. -/
theorem c1_errors_dropped (e : Err) (results : List (Option Err)) :
    downloadSeq (some e) = none ∧ downloadRun results = none := by
  constructor
  · rfl
  · unfold downloadRun
    rw [foldl_checkErr_nil]
    rfl

/-- Claim C2: an empty pattern list matches no path, as file or as
directory, whatever filepath.Clean and filepath.Match do; consequently
getTree over any listing with an empty pattern list skips every entry
and produces the empty tree. -/
theorem c2_empty_glob_matches_nothing (clean : String → String)
    (matchOne : String → String → Bool) (path : String) (isDir : Bool)
    (fsPath : String) (entries : List GhEntry) :
    Patterns.Match clean matchOne [] path isDir = false
    ∧ getTree clean matchOne [] fsPath entries = Except.ok ([] : Tree String) := by
  exact ⟨match_nil clean matchOne path isDir,
    getTreeLoop_nil_patterns clean matchOne fsPath entries []⟩

/-- Claim C3: the claim says a handle produced by WithContext owns
cursor state independent of the source handle's, also when the source
handle's cursor was already initialized.  The code violates this:
withContext copies the lazyReader struct by value, so the copied handle
aliases the same bytes.Reader.  Below, handle h has read one byte of
"hello" (position 1); the rebound handle h2 seeks to 0, and h's position
is reset with it, so h's next read returns "hello" from the start
again instead of continuing with "ello". -/
theorem c3_withContext_shares_cursor :
    (LzReader.Read ldPlain initWorld openReader 1).2.1.reader = some 0
    ∧ ((LzReader.Read ldPlain initWorld openReader 1).2.1.withContext false).reader = some 0
    ∧ (LzReader.Read ldPlain initWorld openReader 1).1.cursors = [⟨"hello", 1⟩]
    ∧ (LzReader.Seek ldPlain (LzReader.Read ldPlain initWorld openReader 1).1
        ((LzReader.Read ldPlain initWorld openReader 1).2.1.withContext false)
        0 Whence.toStart).1.cursors = [⟨"hello", 0⟩]
    ∧ (LzReader.Read ldPlain
        (LzReader.Seek ldPlain (LzReader.Read ldPlain initWorld openReader 1).1
          ((LzReader.Read ldPlain initWorld openReader 1).2.1.withContext false)
          0 Whence.toStart).1
        (LzReader.Read ldPlain initWorld openReader 1).2.1 5).2.2
      = Except.ok "hello" := by
  refine ⟨rfl, rfl, rfl, rfl, rfl⟩

/-- Claim C4: the claim says that after any sequence of AddFile/AddDir
calls, every ancestor of every path present in the tree is present and
is a directory.  The code violates this: AddDir inserts the new
directory node before validating the parent chain, so AddFile "a"
followed by the failing AddDir "a/b" leaves "a/b" in the tree while its
ancestor "a" is a file. -/
theorem c4_orphan_after_failed_adddir :
    c4t1.2 = none
    ∧ c4t2.2 = some (Err.override "a")
    ∧ Tree.find c4t2.1 "a/b" = some (Node.dir "b" [])
    ∧ Tree.find c4t2.1 "a" = some (Node.file "a" 10 ()) := by
  simp [c4t1, c4t2, Tree.AddFile, Tree.AddDir, Tree.find, cleanPath, trimSlashes,
    splitPath, splitPathList, Tree.insert, Node.isDir, List.asString]

/-- Claim C5, counterexample: the claim says the first Read of a handle
bound to a cancelled context leaves the content cache untouched for
every loader.  With a loader that ignores its context, Read does fail
(the context check), but only after lazy() has already invoked the
loader and populated the cache. -/
theorem c5_cache_touched_counterexample :
    (LzReader.Read ldPlain initWorld (openReader.withContext true) 5).2.2
        = Except.error Err.ctxCanceled
    ∧ (LzReader.Read ldPlain initWorld (openReader.withContext true) 5).1.file.content
        = some "hello"
    ∧ (LzReader.Read ldPlain initWorld (openReader.withContext true) 5).1.file.content
        ≠ none := by
  refine ⟨rfl, rfl, by decide⟩

/-- Claim C5, amended: for every loader that honours the documented
Loader contract (it returns an error when its context is done), a first
Read through a handle bound to a cancelled context fails with the
loader's error and leaves the content cache empty and the cursor store
untouched, and a second, freshly opened handle with a live context then
reads the full content successfully. -/
theorem c5_cancelled_read (load : Ctx → Except Err String) (e : Err) (s : String)
    (n : Nat) (hfail : load true = Except.error e) (hok : load false = Except.ok s)
    (hs : s ≠ "") :
    (LzReader.Read load initWorld (openReader.withContext true) n).2.2
        = Except.error e
    ∧ (LzReader.Read load initWorld (openReader.withContext true) n).1.file.content
        = none
    ∧ (LzReader.Read load initWorld (openReader.withContext true) n).1.cursors = []
    ∧ (LzReader.Read load
        (LzReader.Read load initWorld (openReader.withContext true) n).1
        openReader s.data.length).2.2 = Except.ok s := by
  have hdata : s.data ≠ [] := by
    intro hc
    apply hs
    cases s
    simp at hc
    rw [hc]
  have hpos : 0 < s.data.length := List.length_pos.mpr hdata
  have h1 : LzReader.Read load initWorld (openReader.withContext true) n
      = (⟨⟨none, 1, 0⟩, []⟩, ⟨none, true⟩, Except.error e) := by
    simp [LzReader.Read, LzReader.lazy, loadContent, initWorld, initFile,
      openReader, LzReader.withContext, hfail]
  refine ⟨by rw [h1], by rw [h1], by rw [h1], ?_⟩
  rw [h1]
  simp only [LzReader.Read, LzReader.lazy, loadContent, openReader]
  simp [hok, ctxErr, cursorRead, Nat.not_le.mpr hpos, List.take_length]
  have hlen0 : s.length ≠ 0 := by
    show s.data.length ≠ 0
    omega
  rw [if_neg hlen0]
  show Except.ok (⟨List.take s.length s.data⟩ : String) = Except.ok s
  have htake : List.take s.length s.data = s.data := by
    show List.take s.data.length s.data = s.data
    exact List.take_length s.data
  rw [htake]

/-- Witness for the amended C5: the contract loader errors on the
cancelled context without touching the cache, and a fresh handle with a
live context then reads "hello". -/
theorem c5_cancelled_read_witness :
    (LzReader.Read ldContract initWorld (openReader.withContext true) 5).2.2
        = Except.error Err.ctxCanceled
    ∧ (LzReader.Read ldContract initWorld (openReader.withContext true) 5).1.file.content
        = none
    ∧ (LzReader.Read ldContract initWorld (openReader.withContext true) 5).1.cursors = []
    ∧ (LzReader.Read ldContract
        (LzReader.Read ldContract initWorld (openReader.withContext true) 5).1
        openReader "hello".data.length).2.2 = Except.ok "hello" :=
  c5_cancelled_read ldContract Err.ctxCanceled "hello" 5 rfl rfl (by decide)

/-- Claim C6: once a load has succeeded the cached content is never
replaced and the loader is never invoked again; a failed load leaves the
cache empty and the next loadContent call invokes the loader again; and
across any call sequence from a fresh file the loader succeeds at most
once. -/
theorem c6_load_once (load : Ctx → Except Err String) (f g : FileSt) (c : String)
    (ctxs : List Ctx) (ctx ctx2 : Ctx) (e : Err)
    (hf : f.content = some c) (hg : g.content = none)
    (hfail : load ctx = Except.error e) :
    loadContentSeq load f ctxs = f
    ∧ (loadContent load g ctx).1.content = none
    ∧ (loadContent load g ctx).2 = some e
    ∧ (loadContent load g ctx).1.loads = g.loads + 1
    ∧ (loadContent load (loadContent load g ctx).1 ctx2).1.loads = g.loads + 2
    ∧ (loadContentSeq load initFile ctxs).succs ≤ 1 := by
  have hstep : loadContent load g ctx = ({ g with loads := g.loads + 1 }, some e) := by
    unfold loadContent
    rw [hg, hfail]
    rfl
  refine ⟨loadContentSeq_cached load f c hf ctxs, ?_, ?_, ?_, ?_, ?_⟩
  · rw [hstep]
    exact hg
  · rw [hstep]
  · rw [hstep]
  · rw [hstep]
    unfold loadContent
    simp only [hg]
    match hl : load ctx2 with
    | Except.error e2 => simp
    | Except.ok buf => simp
  · exact loadContentSeq_succs_le load ctxs initFile (by decide) (fun _ => rfl)

/-- Witness for C6 at a concrete loader, already-loaded file and failing
context. -/
theorem c6_load_once_witness :
    loadContentSeq ldContract ⟨some "x", 2, 1⟩ [false, true] = ⟨some "x", 2, 1⟩
    ∧ (loadContent ldContract initFile true).1.content = none
    ∧ (loadContent ldContract initFile true).2 = some Err.ctxCanceled
    ∧ (loadContent ldContract initFile true).1.loads = initFile.loads + 1
    ∧ (loadContent ldContract (loadContent ldContract initFile true).1 false).1.loads
        = initFile.loads + 2
    ∧ (loadContentSeq ldContract initFile [false, true]).succs ≤ 1 :=
  c6_load_once ldContract ⟨some "x", 2, 1⟩ initFile "x" [false, true] true false
    Err.ctxCanceled rfl rfl rfl

/-- Claim C7: Open trims separators from both ends of the name before
the lookup; a missing path yields os.ErrNotExist; a name with a trailing
separator resolving to a file yields os.ErrInvalid; otherwise Open hands
out a handle, and for a file node that handle is freshly initialized —
nil cursor and background context — on every call. -/
theorem c7_open_contract (t : Tree Unit) (n1 n2 n3 nm : String) (sz : Int)
    (ld : Unit) (node : Node Unit)
    (h1 : t.find (cleanPath n1) = none)
    (h2 : t.find (cleanPath n2) = some (Node.file nm sz ld))
    (h2s : n2.data.getLast? = some '/')
    (h3 : t.find (cleanPath n3) = some node)
    (h3v : n3.data.getLast? = some '/' → node.isDir = true) :
    t.Open n1 = Except.error Err.errNotExist
    ∧ t.Open n2 = Except.error Err.errInvalid
    ∧ t.Open n3 = Except.ok node.openHandle
    ∧ (∀ fn fs fl, node = Node.file fn fs fl →
        node.openHandle = Handle.fileHandle fn fs fl none false) := by
  refine ⟨?_, ?_, ?_, ?_⟩
  · simp only [Tree.Open, h1]
  · simp only [Tree.Open, h2]
    simp [valid, h2s, Node.isDir]
  · have hv : valid n3 node = true := by
      unfold valid
      by_cases hcase : n3.data.getLast? = some '/'
      · simp [hcase, h3v hcase]
      · simp [hcase]
    simp only [Tree.Open, h3, hv]
    simp
  · intro fn fs fl hnode
    rw [hnode]
    rfl

/-- Witness for C7 on a tree with file "a" and directory "b": a missing
name, the directory-asserting name "a/" over the file, and the
leading-separator name "/a" that opens the file with a fresh handle. -/
theorem c7_open_contract_witness :
    c7w.Open "nosuch" = Except.error Err.errNotExist
    ∧ c7w.Open "a/" = Except.error Err.errInvalid
    ∧ c7w.Open "/a" = Except.ok (Node.file "a" 6 ()).openHandle
    ∧ (∀ fn fs fl, Node.file "a" 6 () = Node.file fn fs fl →
        (Node.file "a" 6 ()).openHandle = Handle.fileHandle fn fs fl none false) :=
  c7_open_contract c7w "nosuch" "a/" "/a" "a" 6 () (Node.file "a" 6 ())
    rfl rfl rfl rfl (fun h => absurd h (by decide))

/-- Claim C8: Readdir on a directory handle returns all entries for
n <= 0, the first n entries for 0 < n < k, and all k entries without
error for n >= k; Readdir on a file handle returns an empty result and
no error. -/
theorem c8_readdir_contract (files : List FInfo) (n : Int) (nm : String) (sz : Int) :
    (Handle.dirHandle nm files : Handle Unit).Readdir n
      = (if 0 < n ∧ n < (files.length : Int) then files.take n.toNat else files, none)
    ∧ (Handle.fileHandle nm sz () none false : Handle Unit).Readdir n = ([], none) := by
  constructor
  · simp only [Handle.Readdir]
    by_cases hc : 0 < n ∧ n < (files.length : Int)
    · rw [if_pos hc]
      have hcond : (decide (n ≤ 0) || decide (n ≥ (files.length : Int))) = false := by
        simp only [Bool.or_eq_false_iff, decide_eq_false_iff_not, not_le, ge_iff_le]
        exact ⟨hc.1, hc.2⟩
      rw [hcond]
      simp
    · rw [if_neg hc]
      have hcond : (decide (n ≤ 0) || decide (n ≥ (files.length : Int))) = true := by
        simp only [Bool.or_eq_true, decide_eq_true_eq, ge_iff_le]
        omega
      rw [hcond]
      simp
  · rfl

/-- Claim C9: inserting over an existing entry of the other kind fails
and returns the tree unchanged; re-inserting the same kind succeeds as a
no-op, also with the tree unchanged. -/
theorem c9_conflict_noop (t : Tree Unit) (p q nm dn : String) (fsz sz : Int)
    (fl ld : Unit) (dfs : List FInfo)
    (hp : t.find (cleanPath p) = some (Node.file nm fsz fl))
    (hq : t.find (cleanPath q) = some (Node.dir dn dfs)) :
    t.AddDir p = (t, some (Err.override (cleanPath p)))
    ∧ t.AddFile p sz ld = (t, none)
    ∧ t.AddFile q sz ld = (t, some (Err.override (cleanPath q)))
    ∧ t.AddDir q = (t, none) := by
  refine ⟨?_, ?_, ?_, ?_⟩
  · rw [Tree.AddDir]
    rw [hp]
    rfl
  · simp only [Tree.AddFile, hp]
    simp [Node.isDir]
  · simp only [Tree.AddFile, hq]
    simp [Node.isDir]
  · rw [Tree.AddDir]
    rw [hq]
    rfl

/-- Witness for C9 on a tree with file "a" and directory "b". -/
theorem c9_conflict_noop_witness :
    c9w.AddDir "a" = (c9w, some (Err.override (cleanPath "a")))
    ∧ c9w.AddFile "a" 3 () = (c9w, none)
    ∧ c9w.AddFile "b" 3 () = (c9w, some (Err.override (cleanPath "b")))
    ∧ c9w.AddDir "b" = (c9w, none) :=
  c9_conflict_noop c9w "a" "b" "a" "b" 6 3 () () [] rfl rfl

/-- Claim C10: for identifiers matching the project grammar, a non-empty
subpath group is normalized to end with a separator; a semver ref group
is rewritten with a "tags/" prefix (and parsing succeeds); and a
non-empty ref group that after the rewrite starts with neither "heads/"
nor "tags/" makes parsing fail. -/
theorem c10_project_parse (owner repo path ref1 ref2 : String)
    (hsem : reSemverMatch ref1 = true)
    (hpath : path ≠ "")
    (h2ne : ref2 ≠ "")
    (hh : hasPre "heads/".data
        (if reSemverMatch ref2 then "tags/" ++ ref2 else ref2).data = false)
    (ht : hasPre "tags/".data
        (if reSemverMatch ref2 then "tags/" ++ ref2 else ref2).data = false) :
    (∃ pr, newProject owner repo path ref1 = Except.ok pr
      ∧ pr.ref = "tags/" ++ ref1
      ∧ pr.path.data.getLast? = some '/')
    ∧ newProject owner repo path ref2 = Except.error Err.badRef := by
  have hdp : (∀ r : String, ("tags/" ++ r).data = "tags/".data ++ r.data) := by
    intro r
    cases r
    rfl
  constructor
  · have htags : hasPre "tags/".data ("tags/" ++ ref1).data = true := by
      rw [hdp]
      exact hasPre_append "tags/".data ref1.data
    have hver : verifyRef ("tags/" ++ ref1) = none := by
      unfold verifyRef
      rw [htags]
      simp
    refine ⟨⟨owner, repo, "tags/" ++ ref1,
      if path.data ≠ [] ∧ path.data.getLast? ≠ some '/' then ⟨path.data ++ ['/']⟩
      else path⟩, ?_, rfl, ?_⟩
    · unfold newProject
      rw [hsem]
      simp only [if_true]
      rw [hver]
    · by_cases hc : path.data ≠ [] ∧ path.data.getLast? ≠ some '/'
      · rw [if_pos hc]
        exact List.getLast?_concat path.data
      · rw [if_neg hc]
        have hne : path.data ≠ [] := by
          intro hnil
          apply hpath
          cases path
          simp only at hnil
          rw [hnil]
        rcases not_and_or.mp hc with h | h
        · exact absurd hne h
        · exact not_not.mp h
  · have hsem2 : reSemverMatch ref2 = false := by
      by_contra hcon
      have hT : reSemverMatch ref2 = true := by
        cases hr : reSemverMatch ref2
        · exact absurd hr hcon
        · rfl
      rw [hT, if_pos rfl] at ht
      rw [hdp] at ht
      rw [hasPre_append "tags/".data ref2.data] at ht
      exact Bool.true_eq_false.mp ht
    rw [hsem2] at hh ht
    simp only [Bool.false_eq_true, if_false] at hh ht
    unfold newProject
    rw [hsem2]
    simp only [Bool.false_eq_true, if_false]
    have hver2 : verifyRef ref2 = some Err.badRef := by
      unfold verifyRef
      rw [hh, ht]
      simp [h2ne]
    rw [hver2]

/-- Witness for C10: the semver ref "v1.2.3" with subpath "static"
parses to ref "tags/v1.2.3" and a '/'-terminated path, while the bare
branch name "feature" is rejected. -/
theorem c10_project_parse_witness :
    (∃ pr, newProject "x" "y" "static" "v1.2.3" = Except.ok pr
      ∧ pr.ref = "tags/" ++ "v1.2.3"
      ∧ pr.path.data.getLast? = some '/')
    ∧ newProject "x" "y" "static" "feature" = Except.error Err.badRef :=
  c10_project_parse "x" "y" "static" "v1.2.3" "feature" (by decide) (by decide)
    (by decide) (by decide) (by decide)

end Gitfs
